import Mathlib

/-!
Verification development for the `meshcore-keygen` vanity Ed25519 key searcher.

The Rust sources under `src/` are shallowly embedded here:
* bytes are modelled as `Nat` (with explicit masking where the code masks),
* byte slices as `List Nat`, fixed 32-byte seeds as `Fin 32 → Nat`,
* SHA-512 and the Edwards25519 base-point multiplication used by the
  `sha2` / `curve25519-dalek` / `ed25519-dalek` dependencies are embedded as
  executable functions following FIPS 180-4 and RFC 8032,
* the stateful CPU worker loop of `src/cpu.rs` is embedded as a fuelled
  functional program over explicit environment streams (stop-flag reads,
  generated seeds, channel-send outcomes).
-/

/-! ## Pattern matcher and hex conversion (src/utils.rs) -/

/-- Embedding of `check_prefix_match` from `src/utils.rs`: true iff the pattern
bytes are no longer than the key and equal its leading bytes. -/
def check_prefix_match (publicKeyBytes patternBytes : List Nat) : Bool :=
  if patternBytes.length > publicKeyBytes.length then false
  else publicKeyBytes.take patternBytes.length == patternBytes

/-- ASCII uppercase mapping on a single character, modelling Rust
`str::to_uppercase` as used on hex-pattern strings (on the ASCII range the two
agree; full Unicode case mapping is irrelevant to hex digits). -/
def rustCharToUpper (c : Char) : Char :=
  if c.toNat ≥ 97 ∧ c.toNat ≤ 122 then Char.ofNat (c.toNat - 32) else c

/-- Uppercase a whole string, character by character. -/
def rustStrToUpper (s : String) : String := String.mk (s.data.map rustCharToUpper)

/-- Embedding of Rust `char::is_ascii_hexdigit`. -/
def isAsciiHexdigit (c : Char) : Bool :=
  decide (( '0' ≤ c ∧ c ≤ '9') ∨ ( 'A' ≤ c ∧ c ≤ 'F') ∨ ( 'a' ≤ c ∧ c ≤ 'f'))

/-- Numeric value of a hex digit; `0` for anything else (the `unwrap_or(0)`
fallback of `u8::from_str_radix` in `hex_string_to_bytes`). -/
def hexDigitValue (c : Char) : Nat :=
  if '0' ≤ c ∧ c ≤ '9' then c.toNat - 48
  else if 'A' ≤ c ∧ c ≤ 'F' then c.toNat - 65 + 10
  else if 'a' ≤ c ∧ c ≤ 'f' then c.toNat - 97 + 10
  else 0

/-- Consume an even-length character list two digits at a time, producing one
byte per pair, as the `(0..hex.len()).step_by(2)` loop does. -/
def pairsToBytes : List Char → List Nat
  | c1 :: c2 :: rest => (16 * hexDigitValue c1 + hexDigitValue c2) :: pairsToBytes rest
  | _ => []

/-- The defensive character replacement of `hex_string_to_bytes`: any
character that is not a hex digit becomes `'0'`. -/
def replaceNonHexChar (c : Char) : Char := if isAsciiHexdigit c then c else '0'

/-- Embedding of `hex_string_to_bytes` from `src/utils.rs`: uppercase,
right-pad odd-length input with one `'0'`, replace non-hex characters by
`'0'`, then convert digit pairs to bytes. -/
def hex_string_to_bytes (hexStr : String) : List Nat :=
  pairsToBytes
    ((if ((rustStrToUpper hexStr).data).length % 2 = 1
        then (rustStrToUpper hexStr).data ++ [ '0']
        else (rustStrToUpper hexStr).data).map replaceNonHexChar)

/-! ## SHA-512 (FIPS 180-4), as used via the `sha2` crate -/

/-- Word modulus of SHA-512 (64-bit words). -/
def w64 : Nat := 2 ^ 64

/-- Right rotation of a 64-bit word. -/
def rotr64 (x n : Nat) : Nat := ((x >>> n) ||| (x <<< (64 - n))) % w64

/-- Bitwise complement on 64-bit words. -/
def not64 (x : Nat) : Nat := x ^^^ (w64 - 1)

/-- SHA-512 choice function. -/
def chFn (x y z : Nat) : Nat := (x &&& y) ^^^ (not64 x &&& z)

/-- SHA-512 majority function. -/
def majFn (x y z : Nat) : Nat := (x &&& y) ^^^ (x &&& z) ^^^ (y &&& z)

/-- SHA-512 upper-case sigma 0. -/
def bigSigma0 (x : Nat) : Nat := rotr64 x 28 ^^^ rotr64 x 34 ^^^ rotr64 x 39

/-- SHA-512 upper-case sigma 1. -/
def bigSigma1 (x : Nat) : Nat := rotr64 x 14 ^^^ rotr64 x 18 ^^^ rotr64 x 41

/-- SHA-512 lower-case sigma 0. -/
def smallSigma0 (x : Nat) : Nat := rotr64 x 1 ^^^ rotr64 x 8 ^^^ (x >>> 7)

/-- SHA-512 lower-case sigma 1. -/
def smallSigma1 (x : Nat) : Nat := rotr64 x 19 ^^^ rotr64 x 61 ^^^ (x >>> 6)

/-- Trial-division primality test, used only to enumerate the primes from
which FIPS 180-4 defines the SHA-512 constants. -/
def isPrimeNat (n : Nat) : Bool :=
  decide (2 ≤ n) && (List.range n).all fun d => d ≤ 1 || n % d ≠ 0

/-- The first eighty prime numbers. -/
def first80Primes : List Nat := ((List.range 410).filter isPrimeNat).take 80

/-- Binary search for the integer cube root: largest `x` with `x ^ 3 ≤ n`,
maintaining `lo ^ 3 ≤ n < hi ^ 3`. -/
def cbrtAux : Nat → Nat → Nat → Nat → Nat
  | 0, lo, _, _ => lo
  | fuel + 1, lo, hi, n =>
      let mid := (lo + hi) / 2
      if mid = lo then lo
      else if mid ^ 3 ≤ n then cbrtAux fuel mid hi n else cbrtAux fuel lo mid n

/-- Integer cube root. -/
def natCbrt (n : Nat) : Nat := cbrtAux (n + 2) 0 (n + 1) n

/-- First sixty-four bits of the fractional part of the square root of `p`
(how FIPS 180-4 defines the SHA-512 initial hash values). -/
def fracSqrtBits (p : Nat) : Nat := Nat.sqrt (p * 2 ^ 128) % w64

/-- First sixty-four bits of the fractional part of the cube root of `p`
(how FIPS 180-4 defines the SHA-512 round constants). -/
def fracCbrtBits (p : Nat) : Nat := natCbrt (p * 2 ^ 192) % w64

/-- The eighty SHA-512 round constants. -/
def sha512K : List Nat := first80Primes.map fracCbrtBits

/-- The eight SHA-512 initial hash words. -/
def sha512InitWords : List Nat := (first80Primes.take 8).map fracSqrtBits

/-- Running state of the SHA-512 compression function: eight 64-bit words. -/
structure Sha512State where
  a : Nat
  b : Nat
  c : Nat
  d : Nat
  e : Nat
  f : Nat
  g : Nat
  hh : Nat
deriving DecidableEq

/-- Initial SHA-512 state. -/
def sha512Init : Sha512State :=
  { a := sha512InitWords.getD 0 0, b := sha512InitWords.getD 1 0,
    c := sha512InitWords.getD 2 0, d := sha512InitWords.getD 3 0,
    e := sha512InitWords.getD 4 0, f := sha512InitWords.getD 5 0,
    g := sha512InitWords.getD 6 0, hh := sha512InitWords.getD 7 0 }

/-- One SHA-512 round, consuming one round constant and one schedule word. -/
def sha512Round (st : Sha512State) (kw : Nat × Nat) : Sha512State :=
  let t1 := (st.hh + bigSigma1 st.e + chFn st.e st.f st.g + kw.1 + kw.2) % w64
  let t2 := (bigSigma0 st.a + majFn st.a st.b st.c) % w64
  { a := (t1 + t2) % w64, b := st.a, c := st.b, d := st.c,
    e := (st.d + t1) % w64, f := st.e, g := st.f, hh := st.g }

/-- Extend the sixteen block words to the eighty schedule words; the
accumulator list is kept most-recent-first. -/
def extendSchedule : Nat → List Nat → List Nat
  | 0, rws => rws
  | k + 1, rws =>
      extendSchedule k
        (((smallSigma1 (rws.getD 1 0) + rws.getD 6 0 + smallSigma0 (rws.getD 14 0)
            + rws.getD 15 0) % w64) :: rws)

/-- The full eighty-word message schedule of a block. -/
def sha512Schedule (block : List Nat) : List Nat :=
  (extendSchedule 64 block.reverse).reverse

/-- Compress one sixteen-word block into the state. -/
def sha512Compress (st : Sha512State) (block : List Nat) : Sha512State :=
  let fin := (List.zip sha512K (sha512Schedule block)).foldl sha512Round st
  { a := (st.a + fin.a) % w64, b := (st.b + fin.b) % w64,
    c := (st.c + fin.c) % w64, d := (st.d + fin.d) % w64,
    e := (st.e + fin.e) % w64, f := (st.f + fin.f) % w64,
    g := (st.g + fin.g) % w64, hh := (st.hh + fin.hh) % w64 }

/-- Pack bytes into big-endian 64-bit words, eight bytes per word. -/
def bytesToWords64 : List Nat → List Nat
  | b0 :: b1 :: b2 :: b3 :: b4 :: b5 :: b6 :: b7 :: rest =>
      (b0 % 256 * 2 ^ 56 + b1 % 256 * 2 ^ 48 + b2 % 256 * 2 ^ 40 + b3 % 256 * 2 ^ 32
        + b4 % 256 * 2 ^ 24 + b5 % 256 * 2 ^ 16 + b6 % 256 * 2 ^ 8 + b7 % 256)
        :: bytesToWords64 rest
  | _ => []

/-- SHA-512 padding: a `0x80` byte, zeros to 112 mod 128, then the bit length
as a 16-byte big-endian integer. -/
def sha512Pad (msg : List Nat) : List Nat :=
  let zeros := (128 + 112 - (msg.length + 1) % 128) % 128
  msg ++ [128] ++ List.replicate zeros 0
    ++ (List.range 16).map (fun i => ((8 * msg.length) >>> (8 * (15 - i))) % 256)

/-- Split a byte list into 128-byte chunks. -/
def chunks128 : List Nat → List (List Nat)
  | [] => []
  | x :: rest => ((x :: rest).take 128) :: chunks128 ((x :: rest).drop 128)
termination_by l => l.length
decreasing_by simp [List.length_drop]; omega

/-- Big-endian byte serialisation of one 64-bit word. -/
def toBE8 (wd : Nat) : List Nat :=
  [ (wd >>> 56) % 256, (wd >>> 48) % 256, (wd >>> 40) % 256, (wd >>> 32) % 256,
    (wd >>> 24) % 256, (wd >>> 16) % 256, (wd >>> 8) % 256, wd % 256 ]

/-- Serialise the final state as the 64-byte digest. -/
def sha512Digest (st : Sha512State) : List Nat :=
  toBE8 st.a ++ toBE8 st.b ++ toBE8 st.c ++ toBE8 st.d
    ++ toBE8 st.e ++ toBE8 st.f ++ toBE8 st.g ++ toBE8 st.hh

/-- SHA-512 of a byte sequence. -/
def sha512 (msg : List Nat) : List Nat :=
  sha512Digest ((chunks128 (sha512Pad msg)).foldl
    (fun st blk => sha512Compress st (bytesToWords64 blk)) sha512Init)

/-! ## Edwards25519 (RFC 8032), as used via `curve25519-dalek` / `ed25519-dalek` -/

/-- The prime modulus of Curve25519. -/
def edP : Nat := 2 ^ 255 - 19

/-- The twisted Edwards curve constant, minus 121665 over 121666 modulo `edP`. -/
def edD : Nat := 37095705934669439343138083508754565189542113879843219016388785533085940283555

/-- The order of the Ed25519 base-point group. -/
def ell : Nat := 2 ^ 252 + 27742317777372353535851937790883648493

/-- Fast modular exponentiation by repeated squaring. -/
def powMod (b e m : Nat) : Nat :=
  if h : e = 0 then 1 % m
  else
    let r := powMod (b * b % m) (e / 2) m
    if e % 2 = 1 then r * (b % m) % m else r
termination_by e
decreasing_by exact Nat.div_lt_self (Nat.pos_of_ne_zero h) (by omega)

/-- A curve point in extended twisted Edwards coordinates modulo `edP`. -/
structure EdPoint where
  X : Nat
  Y : Nat
  Z : Nat
  T : Nat
deriving DecidableEq

/-- Subtraction modulo `edP`. -/
def subMod (x y : Nat) : Nat := (x % edP + (edP - y % edP)) % edP

/-- Unified extended-coordinate point addition for the twisted Edwards curve
with a equal to minus one (complete on this curve; also used for doubling). -/
def edAdd (P Q : EdPoint) : EdPoint :=
  let A := subMod P.Y P.X * subMod Q.Y Q.X % edP
  let B := (P.Y + P.X) * (Q.Y + Q.X) % edP
  let C := P.T * (2 * edD % edP) % edP * Q.T % edP
  let D := 2 * P.Z % edP * Q.Z % edP
  let E := subMod B A
  let F := subMod D C
  let G := (D + C) % edP
  let H := (B + A) % edP
  { X := E * F % edP, Y := G * H % edP, Z := F * G % edP, T := E * H % edP }

/-- The neutral element of the curve group. -/
def edZero : EdPoint := { X := 0, Y := 1, Z := 1, T := 0 }

/-- Double-and-add scalar multiplication. -/
def scalarMulPoint (n : Nat) (P : EdPoint) : EdPoint :=
  if h : n = 0 then edZero
  else
    let r := scalarMulPoint (n / 2) (edAdd P P)
    if n % 2 = 1 then edAdd r P else r
termination_by n
decreasing_by exact Nat.div_lt_self (Nat.pos_of_ne_zero h) (by omega)

/-- The Ed25519 base point (RFC 8032), in extended coordinates. -/
def edBase : EdPoint :=
  { X := 15112221349535400772501151409588531511454012693041857206046113283949847762202,
    Y := 46316835694926478169428394003475163141307993866256225615783033603165251855960,
    Z := 1,
    T := 15112221349535400772501151409588531511454012693041857206046113283949847762202
      * 46316835694926478169428394003475163141307993866256225615783033603165251855960 % edP }

/-- Little-endian 32-byte serialisation of a natural number. -/
def toLE32 (n : Nat) : List Nat := (List.range 32).map fun i => (n >>> (8 * i)) % 256

/-- Compress an Edwards point: the 32-byte little-endian encoding of the
affine y coordinate, carrying the parity of x in the top bit. -/
def edCompress (P : EdPoint) : List Nat :=
  let zinv := powMod P.Z (edP - 2) edP
  let x := P.X * zinv % edP
  let y := P.Y * zinv % edP
  toLE32 (y + x % 2 * 2 ^ 255)

/-- Little-endian value of a byte list. -/
def leNat : List Nat → Nat
  | [] => 0
  | b :: rest => b % 256 + 256 * leNat rest

/-- Embedding of `Scalar::from_bytes_mod_order`: the little-endian value of
32 bytes, reduced modulo the group order. -/
def scalarFromBytesModOrder (bytes : List Nat) : Nat := leNat bytes % ell

/-- First write of curve25519-dalek `clamp_integer`: clear the low three bits
of byte 0. -/
def dalekClampLow (b : List Nat) : List Nat := b.set 0 ((b.getD 0 0) &&& 248)

/-- Embedding of curve25519-dalek `clamp_integer`, applied by ed25519-dalek
to the lower hash half when expanding a signing key: clear the low three bits
of byte 0, clear the top bit of byte 31, set bit 6 of byte 31. -/
def dalekClamp (b : List Nat) : List Nat :=
  (dalekClampLow b).set 31 ((((dalekClampLow b).getD 31 0) &&& 127) ||| 64)

/-- Embedding of the ed25519-dalek public-key derivation used by the worker:
`SigningKey::from_bytes(seed).verifying_key().to_bytes()` hashes the seed
with SHA-512, clamps the lower 32 bytes, reduces them to a scalar modulo the
group order, multiplies the base point and compresses the result. -/
def derive_public_key (seed : Fin 32 → Nat) : List Nat :=
  edCompress (scalarMulPoint
    (scalarFromBytesModOrder (dalekClamp ((sha512 (List.ofFn seed)).take 32))) edBase)

/-- The first clamping write of `create_meshcore_private_key`:
`expanded_key[0] &= 248`. -/
def meshcoreClampA (e : List Nat) : List Nat := e.set 0 ((e.getD 0 0) &&& 248)

/-- The second clamping write: `expanded_key[31] &= 63`. -/
def meshcoreClampB (e : List Nat) : List Nat := e.set 31 ((e.getD 31 0) &&& 63)

/-- The third clamping write: `expanded_key[31] |= 64`. -/
def meshcoreClampC (e : List Nat) : List Nat := e.set 31 ((e.getD 31 0) ||| 64)

/-- Embedding of `create_meshcore_private_key` from `src/utils.rs`: SHA-512
of the seed, then the three in-place clamping writes on bytes 0 and 31. -/
def create_meshcore_private_key (seed : Fin 32 → Nat) : List Nat :=
  meshcoreClampC (meshcoreClampB (meshcoreClampA (sha512 (List.ofFn seed))))

/-- Embedding of `extract_public_key_from_meshcore_key` from `src/utils.rs`. -/
def extract_public_key_from_meshcore_key (privateKeyBytes : List Nat) :
    Option (List Nat) :=
  if privateKeyBytes.length ≠ 64 then none
  else
    some (edCompress (scalarMulPoint
      (scalarFromBytesModOrder (privateKeyBytes.take 32)) edBase))

/-- Embedding of `validate_meshcore_key_format` from `src/utils.rs`. -/
def validate_meshcore_key_format (privateKeyBytes : List Nat) : Bool :=
  if privateKeyBytes.length ≠ 64 then false
  else (extract_public_key_from_meshcore_key privateKeyBytes).isSome

/-! ## Helper lemmas -/

/-- The digest serialisation always has 64 bytes. -/
theorem sha512Digest_length (st : Sha512State) : (sha512Digest st).length = 64 := rfl

/-- SHA-512 always produces 64 bytes. -/
theorem sha512_length (msg : List Nat) : (sha512 msg).length = 64 := by
  unfold sha512; exact sha512Digest_length _

/-- Clearing the top two bits and setting bit 6 coincides with clearing only
the top bit and setting bit 6. -/
theorem and63_or64 (x : Nat) : (x &&& 63) ||| 64 = (x &&& 127) ||| 64 := by
  apply Nat.eq_of_testBit_eq
  intro i
  have h63 : (63 : Nat) = 2 ^ 6 - 1 := by norm_num
  have h127 : (127 : Nat) = 2 ^ 7 - 1 := by norm_num
  have h64 : (64 : Nat) = 2 ^ 6 := by norm_num
  rw [h63, h127, h64, Nat.testBit_lor, Nat.testBit_lor, Nat.testBit_land, Nat.testBit_land,
    Nat.testBit_two_pow_sub_one, Nat.testBit_two_pow_sub_one, Nat.testBit_two_pow]
  rcases Nat.lt_trichotomy i 6 with h | h | h
  · have h7 : i < 7 := by omega
    have h6 : ¬ (6 = i) := by omega
    simp [h, h7, h6]
  · subst h; simp
  · have h5 : ¬ i < 6 := by omega
    have h7 : ¬ i < 7 := by omega
    have h6 : ¬ (6 = i) := by omega
    simp [h5, h7, h6]

/-- Reading at an index other than the one written is unchanged. -/
theorem getD_set_ne {α : Type} (l : List α) {i j : Nat} (v d : α) (h : i ≠ j) :
    (l.set i v).getD j d = l.getD j d := by
  simp [List.getD_eq_getElem?_getD, List.getElem?_set_ne h]

/-- Reading at the written index returns the written value. -/
theorem getD_set_self {α : Type} (l : List α) {i : Nat} (v d : α) (h : i < l.length) :
    (l.set i v).getD i d = v := by
  simp [List.getD_eq_getElem?_getD, List.getElem?_set_self h]

/-- Reading through a take is unchanged below the cut. -/
theorem getD_take {α : Type} (l : List α) {i n : Nat} (d : α) (h : i < n) :
    (l.take n).getD i d = l.getD i d := by
  simp [List.getD_eq_getElem?_getD, List.getElem?_take, h]

/-- The three meshcore clamping writes on a 64-byte list, expressed as a
single clamped update in dalek style. -/
theorem meshcore_clamp_eq (h0 : List Nat) (hlen : h0.length = 64) :
    meshcoreClampC (meshcoreClampB (meshcoreClampA h0))
      = (h0.set 0 ((h0.getD 0 0) &&& 248)).set 31 ((((h0.getD 31 0)) &&& 127) ||| 64) := by
  unfold meshcoreClampA meshcoreClampB meshcoreClampC
  rw [getD_set_ne _ _ _ (by omega : (0 : Nat) ≠ 31)]
  rw [getD_set_self _ _ _ (by rw [List.length_set, hlen]; omega)]
  rw [List.set_set, and63_or64]

/-- The expanded key construction, written as a single clamped update of the
hash. -/
theorem create_eq_clamped (seed : Fin 32 → Nat) :
    create_meshcore_private_key seed
      = ((sha512 (List.ofFn seed)).set 0 (((sha512 (List.ofFn seed)).getD 0 0) &&& 248)).set 31
          ((((sha512 (List.ofFn seed)).getD 31 0) &&& 127) ||| 64) :=
  meshcore_clamp_eq _ (sha512_length _)

/-- Taking the first 32 bytes of the clamped update gives the dalek clamp of
the first 32 bytes. -/
theorem clamped_take32 (h0 : List Nat) :
    ((h0.set 0 ((h0.getD 0 0) &&& 248)).set 31 ((((h0.getD 31 0)) &&& 127) ||| 64)).take 32
      = dalekClamp (h0.take 32) := by
  unfold dalekClamp dalekClampLow
  rw [List.set_take, List.set_take]
  rw [getD_take _ _ (by omega : (0 : Nat) < 32)]
  rw [getD_set_ne _ _ _ (by omega : (0 : Nat) ≠ 31)]
  rw [getD_take _ _ (by omega : (31 : Nat) < 32)]

/-- The first 32 bytes of the expanded key equal the dalek-clamped first 32
bytes of the hash. -/
theorem create_take32 (seed : Fin 32 → Nat) :
    (create_meshcore_private_key seed).take 32
      = dalekClamp ((sha512 (List.ofFn seed)).take 32) := by
  rw [create_eq_clamped]; exact clamped_take32 _

/-- Length of the expanded key is 64. -/
theorem create_length (seed : Fin 32 → Nat) :
    (create_meshcore_private_key seed).length = 64 := by
  rw [create_eq_clamped]
  rw [List.length_set, List.length_set, sha512_length]

/-! ## Claims C1, C5, C6, C10: key derivation and validation -/

/-- C1: for every 32-byte seed, extracting the public key from the expanded
private key produced from that seed returns exactly the Ed25519 public key
derived directly from the seed. -/
theorem C1_extract_from_created_key_eq_derived (seed : Fin 32 → Nat) :
    extract_public_key_from_meshcore_key (create_meshcore_private_key seed)
      = some (derive_public_key seed) := by
  unfold extract_public_key_from_meshcore_key
  rw [if_neg (by rw [create_length]; omega)]
  rw [create_take32]
  rfl

/-- C6: the expanded private key is the 64-byte SHA-512 hash of the seed with
the first 32 bytes clamped (low three bits of byte 0 cleared, top bit of
byte 31 cleared, bit 6 of byte 31 set) and the last 32 bytes unchanged. -/
theorem C6_create_is_clamped_sha512 (seed : Fin 32 → Nat) :
    create_meshcore_private_key seed
        = ((sha512 (List.ofFn seed)).set 0 (((sha512 (List.ofFn seed)).getD 0 0) &&& 248)).set 31
            ((((sha512 (List.ofFn seed)).getD 31 0) &&& 127) ||| 64)
      ∧ (create_meshcore_private_key seed).length = 64
      ∧ (create_meshcore_private_key seed).drop 32 = (sha512 (List.ofFn seed)).drop 32 := by
  refine ⟨create_eq_clamped seed, create_length seed, ?_⟩
  rw [create_eq_clamped]
  rw [List.drop_set_of_lt _ _ (by omega : (31 : Nat) < 32)]
  rw [List.drop_set_of_lt _ _ (by omega : (0 : Nat) < 32)]

/-- C5: every input whose length is not 64 fails validation and yields no
public key. -/
theorem C5_wrong_length_rejected (b : List Nat) (h : b.length ≠ 64) :
    validate_meshcore_key_format b = false
      ∧ extract_public_key_from_meshcore_key b = none := by
  constructor
  · unfold validate_meshcore_key_format; rw [if_pos h]
  · unfold extract_public_key_from_meshcore_key; rw [if_pos h]

/-- Witness for C5 at the empty byte list. -/
theorem C5_wrong_length_rejected_witness :
    (([] : List Nat).length ≠ 64)
      ∧ (validate_meshcore_key_format [] = false
          ∧ extract_public_key_from_meshcore_key [] = none) :=
  ⟨by decide, C5_wrong_length_rejected [] (by decide)⟩

/-- C10: extraction succeeds exactly on 64-byte inputs (the scalar reduction
and base-point multiplication are total), validation is equivalent to the
length check, and every freshly expanded key passes validation, so the
worker's silent-discard branch is never taken. -/
theorem C10_validate_iff_length64 :
    (∀ b : List Nat,
        (extract_public_key_from_meshcore_key b).isSome = decide (b.length = 64))
      ∧ (∀ b : List Nat, validate_meshcore_key_format b = decide (b.length = 64))
      ∧ (∀ seed : Fin 32 → Nat,
          validate_meshcore_key_format (create_meshcore_private_key seed) = true) := by
  have hx : ∀ b : List Nat,
      (extract_public_key_from_meshcore_key b).isSome = decide (b.length = 64) := by
    intro b
    unfold extract_public_key_from_meshcore_key
    by_cases h : b.length = 64
    · rw [if_neg (by simp [h])]
      simp [h]
    · rw [if_pos h]
      simp [h]
  have hv : ∀ b : List Nat, validate_meshcore_key_format b = decide (b.length = 64) := by
    intro b
    unfold validate_meshcore_key_format
    by_cases h : b.length = 64
    · rw [if_neg (by simp [h])]
      rw [hx b]
    · rw [if_pos h]
      simp [h]
  refine ⟨hx, hv, ?_⟩
  intro seed
  rw [hv, create_length]
  simp

/-! ## Claim C4: prefix matching -/

/-- Prefixhood is equivalent to agreeing with the take of the same length. -/
theorem isPrefix_iff_take_eq (p k : List Nat) : p <+: k ↔ k.take p.length = p := by
  constructor
  · rintro ⟨t, ht⟩
    subst ht
    simp
  · intro h
    have hsplit := List.take_append_drop p.length k
    rw [h] at hsplit
    exact ⟨k.drop p.length, hsplit⟩

/-- C4: check_prefix_match decides byte-wise prefixhood, rejects patterns
longer than the key, and accepts the empty pattern. -/
theorem C4_check_prefix_match_spec :
    ∀ k p : List Nat,
      (check_prefix_match k p = true ↔ p <+: k)
        ∧ (k.length < p.length → check_prefix_match k p = false)
        ∧ check_prefix_match k [] = true := by
  intro k p
  refine ⟨?_, ?_, ?_⟩
  · unfold check_prefix_match
    by_cases h : p.length > k.length
    · rw [if_pos h]
      constructor
      · intro hf; exact absurd hf (by simp)
      · intro hp; exact absurd hp.length_le (by omega)
    · rw [if_neg h]
      simp only [beq_iff_eq]
      constructor
      · intro ht; exact (isPrefix_iff_take_eq p k).mpr ht
      · intro hp; exact (isPrefix_iff_take_eq p k).mp hp
  · intro h; unfold check_prefix_match; rw [if_pos (by omega)]
  · unfold check_prefix_match
    rw [if_neg (by simp)]
    simp

/-- Witness for C4: the longer-pattern rejection discharged on concrete
inputs. -/
theorem C4_check_prefix_match_spec_witness :
    check_prefix_match [] [0] = false ∧ (([] : List Nat).length < [0].length) :=
  ⟨(C4_check_prefix_match_spec [] [0]).2.1 (by decide), by decide⟩

/-! ## Claim C3: hex pattern conversion -/

/-- Converting a valid scalar value to a character and back is the identity. -/
theorem toNat_ofNat_valid (n : Nat) (h : n.isValidChar) : (Char.ofNat n).toNat = n := by
  rw [Char.ofNat, dif_pos h]
  rfl

/-- The scalar value of the uppercased character. -/
theorem upper_toNat (c : Char) :
    (rustCharToUpper c).toNat
      = if c.toNat ≥ 97 ∧ c.toNat ≤ 122 then c.toNat - 32 else c.toNat := by
  unfold rustCharToUpper
  split
  · rename_i h
    exact toNat_ofNat_valid _ (Or.inl (by omega))
  · rfl

/-- Uppercasing is idempotent. -/
theorem upper_idem (c : Char) : rustCharToUpper (rustCharToUpper c) = rustCharToUpper c := by
  have h1 := upper_toNat c
  by_cases h : c.toNat ≥ 97 ∧ c.toNat ≤ 122
  · rw [if_pos h] at h1
    have h2 : ¬ ((rustCharToUpper c).toNat ≥ 97 ∧ (rustCharToUpper c).toNat ≤ 122) := by omega
    conv_lhs => rw [rustCharToUpper]
    rw [if_neg h2]
  · have h2 : rustCharToUpper c = c := by rw [rustCharToUpper, if_neg h]
    rw [h2, h2]

/-- Uppercasing a string twice equals uppercasing it once. -/
theorem upperStr_idem (s : String) : rustStrToUpper (rustStrToUpper s) = rustStrToUpper s := by
  unfold rustStrToUpper
  rw [List.map_map]
  congr 1
  apply List.map_congr_left
  intro a _
  exact upper_idem a

/-- The pad character is already uppercase. -/
theorem upper_zero : rustCharToUpper '0' = '0' := rfl

/-- The pad character is a hex digit, so replacement keeps it. -/
theorem replace_zero : replaceNonHexChar '0' = '0' := rfl

/-- Appending the pad digit to an odd-length digit list makes the final byte
a multiple of 16. -/
theorem pairs_odd_last :
    ∀ (n : Nat) (l : List Char), l.length ≤ n → l.length % 2 = 1 →
      ∃ bs v, pairsToBytes (l ++ [ '0']) = bs ++ [16 * v] := by
  intro n
  induction n with
  | zero => intro l hl hodd; omega
  | succ n ih =>
    intro l hl hodd
    rcases l with _ | ⟨c1, rest1⟩
    · simp at hodd
    · rcases rest1 with _ | ⟨c2, rest⟩
      · refine ⟨[], hexDigitValue c1, ?_⟩
        have h0 : hexDigitValue '0' = 0 := rfl
        simp [pairsToBytes, h0]
      · have hodd2 : rest.length % 2 = 1 := by
          simp only [List.length_cons] at hodd
          omega
        have hle2 : rest.length ≤ n := by
          simp only [List.length_cons] at hl
          omega
        obtain ⟨bs, v, hbs⟩ := ih rest hle2 hodd2
        refine ⟨(16 * hexDigitValue c1 + hexDigitValue c2) :: bs, v, ?_⟩
        simp [pairsToBytes, hbs]

/-- Case-insensitivity: the conversion agrees on a string and its uppercase
form. -/
theorem hex_upper_invariant (s : String) :
    hex_string_to_bytes s = hex_string_to_bytes (rustStrToUpper s) := by
  unfold hex_string_to_bytes
  rw [upperStr_idem]

/-- Padding semantics: an odd-length string converts like the same string
with one `'0'` appended. -/
theorem hex_pad_odd (s : String) (hodd : s.data.length % 2 = 1) :
    hex_string_to_bytes s = hex_string_to_bytes (s.push '0') := by
  unfold hex_string_to_bytes
  have hpush : (rustStrToUpper (s.push '0')).data
      = (rustStrToUpper s).data ++ [ '0'] := by
    show ((s.data ++ [ '0']).map rustCharToUpper) = _
    rw [List.map_append]
    rfl
  rw [hpush]
  have hlen : ((rustStrToUpper s).data).length % 2 = 1 := by
    show (s.data.map rustCharToUpper).length % 2 = 1
    rw [List.length_map]
    exact hodd
  rw [if_pos hlen]
  rw [if_neg (by rw [List.length_append, List.length_singleton]; omega)]

/-- Defensive replacement semantics: the conversion agrees on a string and on
the string with every character whose uppercase form is not a hex digit
already replaced by `'0'`. -/
theorem hex_zeroize_invariant (s : String) :
    hex_string_to_bytes s
      = hex_string_to_bytes (String.mk (s.data.map fun c =>
          if isAsciiHexdigit (rustCharToUpper c) then c else '0')) := by
  unfold hex_string_to_bytes
  set Z : Char → Char := fun c => if isAsciiHexdigit (rustCharToUpper c) then c else '0'
    with hZ
  have hdata : (rustStrToUpper (String.mk (s.data.map Z))).data
      = (s.data.map Z).map rustCharToUpper := rfl
  have hcore : ((s.data.map Z).map rustCharToUpper).map replaceNonHexChar
      = ((s.data.map rustCharToUpper)).map replaceNonHexChar := by
    simp only [List.map_map]
    apply List.map_congr_left
    intro c _
    simp only [Function.comp_apply]
    show replaceNonHexChar (rustCharToUpper (Z c)) = replaceNonHexChar (rustCharToUpper c)
    by_cases h : isAsciiHexdigit (rustCharToUpper c) = true
    · have hzc : Z c = c := if_pos h
      rw [hzc]
    · have hzc : Z c = '0' := if_neg h
      rw [hzc, upper_zero, replace_zero]
      unfold replaceNonHexChar
      rw [if_neg h]
  have hlen : ((rustStrToUpper (String.mk (s.data.map Z))).data).length
      = ((rustStrToUpper s).data).length := by
    rw [hdata]
    show ((s.data.map Z).map rustCharToUpper).length = (s.data.map rustCharToUpper).length
    rw [List.length_map, List.length_map, List.length_map]
  have hdataS : (rustStrToUpper s).data = s.data.map rustCharToUpper := rfl
  by_cases hodd : ((rustStrToUpper s).data).length % 2 = 1
  · rw [if_pos hodd, if_pos (by rw [hlen]; exact hodd)]
    rw [List.map_append, List.map_append, hdata, hdataS, hcore]
  · rw [if_neg hodd, if_neg (by rw [hlen]; exact hodd)]
    rw [hdata, hdataS, hcore]

/-- Odd-length hex strings convert to a byte list whose final byte has a zero
low nibble. -/
theorem hex_odd_last_nibble (s : String) (hodd : s.data.length % 2 = 1)
    (hhex : ∀ c ∈ s.data, isAsciiHexdigit c = true) :
    ∃ b, (hex_string_to_bytes s).getLast? = some b ∧ b % 16 = 0 := by
  unfold hex_string_to_bytes
  have hdataS : (rustStrToUpper s).data = s.data.map rustCharToUpper := rfl
  have hlen : ((rustStrToUpper s).data).length % 2 = 1 := by
    rw [hdataS, List.length_map]
    exact hodd
  rw [if_pos hlen]
  rw [List.map_append]
  have hpadmap : ([ '0'] : List Char).map replaceNonHexChar = [ '0'] := rfl
  rw [hpadmap]
  set L := ((rustStrToUpper s).data).map replaceNonHexChar with hL
  have hLlen : L.length % 2 = 1 := by
    rw [hL, List.length_map]
    exact hlen
  obtain ⟨bs, v, hbs⟩ := pairs_odd_last L.length L le_rfl hLlen
  refine ⟨16 * v, ?_, Nat.mul_mod_right 16 v⟩
  rw [hbs]
  exact List.getLast?_concat _

/-- C3: hex_string_to_bytes uppercases, right-pads odd-length input with a
`'0'` nibble, maps non-hex characters to `'0'`; every odd-length hex string
produces a final byte with zero low nibble, and the string ABC converts to
the bytes 0xAB 0xC0. -/
theorem C3_hex_string_to_bytes_spec :
    (∀ s : String, hex_string_to_bytes s = hex_string_to_bytes (rustStrToUpper s))
      ∧ (∀ s : String, s.data.length % 2 = 1 →
          hex_string_to_bytes s = hex_string_to_bytes (s.push '0'))
      ∧ (∀ s : String, hex_string_to_bytes s
          = hex_string_to_bytes (String.mk (s.data.map fun c =>
              if isAsciiHexdigit (rustCharToUpper c) then c else '0')))
      ∧ (∀ s : String, s.data.length % 2 = 1 →
          (∀ c ∈ s.data, isAsciiHexdigit c = true) →
          ∃ b, (hex_string_to_bytes s).getLast? = some b ∧ b % 16 = 0)
      ∧ hex_string_to_bytes ("ABC") = [171, 192] :=
  ⟨hex_upper_invariant, hex_pad_odd, hex_zeroize_invariant, hex_odd_last_nibble, by decide⟩

/-- Witness for C3: the padding clause and the last-nibble clause discharged
on the concrete odd-length hex string ABC. -/
theorem C3_hex_string_to_bytes_spec_witness :
    (hex_string_to_bytes ("ABC") = hex_string_to_bytes (("ABC").push '0'))
      ∧ (∃ b, (hex_string_to_bytes ("ABC")).getLast? = some b ∧ b % 16 = 0) :=
  ⟨C3_hex_string_to_bytes_spec.2.1 ("ABC") (by decide),
    C3_hex_string_to_bytes_spec.2.2.2.1 ("ABC") (by decide) (by decide)⟩

/-! ## Search configuration (src/types.rs, src/main.rs) -/

/-- Embedding of the `SearchBehavior` enum from `src/types.rs`. -/
inductive SearchBehavior where
  | FindN (n : Nat)
  | Continuous
deriving DecidableEq

/-- Embedding of the `SearchConfig` struct from `src/types.rs`; the Rust
field `prefix` is named `prefixPattern` here. -/
structure SearchConfig where
  prefixPattern : String
  searchBehavior : SearchBehavior
  cpuThreads : Nat
deriving DecidableEq

/-- The sixteen allowed pattern characters of `create_search_config`. -/
def hexUpperChars : List Char :=
  [ '0', '1', '2', '3', '4', '5', '6', '7', '8', '9', 'A', 'B', 'C', 'D', 'E', 'F']

/-- Embedding of `create_search_config` from `src/main.rs`. The Rust code
reads the machine's available parallelism; that environment query is passed
in as the `availableParallelism` argument. -/
def create_search_config (availableParallelism : Nat) (pattern : String)
    (maxKeys : Nat) : Except String SearchConfig :=
  if ¬ ((rustStrToUpper pattern).data.all fun c => hexUpperChars.contains c) then
    Except.error ("Invalid hex characters in pattern "
      ++ rustStrToUpper pattern ++ ". Only 0-9 and A-F are allowed.")
  else if (rustStrToUpper pattern).data.isEmpty then
    Except.error ("Pattern cannot be empty.")
  else
    Except.ok
      { prefixPattern := rustStrToUpper pattern,
        searchBehavior :=
          match maxKeys with
          | 0 => SearchBehavior.Continuous
          | n => SearchBehavior.FindN n,
        cpuThreads := max (availableParallelism - 1) 1 }

/-! ## Stop policy checks (src/keygen.rs) -/

/-- The monitor thread's stopping condition in `run_key_search`: under FindN
stop once the sampled match counter reaches the target; never stop under
Continuous. -/
def monitorShouldStop (behavior : SearchBehavior) (prefixFound : Nat) : Bool :=
  match behavior with
  | SearchBehavior.FindN n => prefixFound ≥ n
  | SearchBehavior.Continuous => false

/-- The found-key consumer's stopping condition in `run_key_search`: under
FindN stop once the processed-key count reaches the target; never stop under
Continuous. -/
def consumerShouldStop (behavior : SearchBehavior) (totalFound : Nat) : Bool :=
  match behavior with
  | SearchBehavior.FindN n => totalFound ≥ n
  | SearchBehavior.Continuous => false

/-- Effect of one monitor check on the stop flag: `store(true)` happens only
when the condition holds, otherwise the flag is left alone. -/
def monitorStepFlag (behavior : SearchBehavior) (prefixFound : Nat) (flag : Bool) : Bool :=
  if monitorShouldStop behavior prefixFound then true else flag

/-- Effect of one consumer check on the stop flag. -/
def consumerStepFlag (behavior : SearchBehavior) (totalFound : Nat) (flag : Bool) : Bool :=
  if consumerShouldStop behavior totalFound then true else flag

/-! ## SecureString (src/secure.rs) -/

/-- Embedding of the `SecureString` wrapper from `src/secure.rs`. -/
structure SecureString where
  data : String

/-- Embedding of `SecureString::new`. -/
def SecureString.new (d : String) : SecureString := ⟨d⟩

/-- Embedding of `SecureString::expose`: the only accessor of the wrapped
value. -/
def SecureString.expose (s : SecureString) : String := s.data

/-- Output of Rust `Formatter::debug_struct("SecureString").field("data",
&"[REDACTED]").finish()`: one-line struct formatting with the fixed
placeholder in place of the wrapped value. -/
def secureStringRedactedOutput : String :=
  "SecureString \x7b data: \"[REDACTED]\" \x7d"

/-- Embedding of the manual `Debug` implementation for `SecureString`: it
formats the literal `"[REDACTED]"`, never `self.data`. -/
def SecureString.debugFmt (_ : SecureString) : String := secureStringRedactedOutput

/-! ## Claims C7, C8, C9 -/

/-- C7: create_search_config rejects every empty pattern and every pattern
containing, after uppercasing, a character outside 0-9 and A-F; every
accepted configuration carries a non-empty all-hex pattern. -/
theorem C7_create_search_config_validation :
    (∀ (ap : Nat) (pat : String) (mk : Nat),
        (pat.data = []
            ∨ ∃ c ∈ (rustStrToUpper pat).data, ¬ (hexUpperChars.contains c = true)) →
        ∃ e, create_search_config ap pat mk = Except.error e)
      ∧ (∀ (ap : Nat) (pat : String) (mk : Nat) (cfg : SearchConfig),
          create_search_config ap pat mk = Except.ok cfg →
          cfg.prefixPattern.data ≠ []
            ∧ ∀ c ∈ cfg.prefixPattern.data, hexUpperChars.contains c = true) := by
  constructor
  · intro ap pat mk hbad
    by_cases hall : ((rustStrToUpper pat).data.all fun c => hexUpperChars.contains c) = true
    · have hempty : pat.data = [] := by
        rcases hbad with h | ⟨c, hc, hnc⟩
        · exact h
        · exact absurd (List.all_eq_true.mp hall c hc) hnc
      have hdata : (rustStrToUpper pat).data = [] := by
        show pat.data.map rustCharToUpper = []
        rw [hempty]
        rfl
      refine ⟨"Pattern cannot be empty.", ?_⟩
      unfold create_search_config
      rw [if_neg (not_not_intro hall), if_pos (by rw [hdata]; rfl)]
    · refine ⟨"Invalid hex characters in pattern "
        ++ rustStrToUpper pat ++ ". Only 0-9 and A-F are allowed.", ?_⟩
      unfold create_search_config
      rw [if_pos hall]
  · intro ap pat mk cfg h
    unfold create_search_config at h
    split_ifs at h with h1 h2
    have hcfg : cfg.prefixPattern = rustStrToUpper pat := by
      cases h
      rfl
    constructor
    · rw [hcfg]
      intro hnil
      exact h2 (by rw [List.isEmpty_iff, hnil])
    · rw [hcfg]
      intro c hc
      exact List.all_eq_true.mp h1 c hc

/-- Witness for C7: the empty pattern is rejected and the pattern BEEF is
accepted with a non-empty all-hex prefix. -/
theorem C7_create_search_config_validation_witness :
    (∃ e, create_search_config 4 ("") 1 = Except.error e)
      ∧ ((SearchConfig.mk ("BEEF") (SearchBehavior.FindN 1) 3).prefixPattern.data ≠ []
          ∧ ∀ c ∈ (SearchConfig.mk ("BEEF") (SearchBehavior.FindN 1) 3).prefixPattern.data,
              hexUpperChars.contains c = true) :=
  ⟨C7_create_search_config_validation.1 4 ("") 1 (Or.inl rfl),
    C7_create_search_config_validation.2 4 ("BEEF") 1 _ rfl⟩

/-- C8: under the Continuous policy neither the monitor check nor the
consumer check ever turns the stop flag on, and each check yields a set flag
exactly when it was already set or the policy is FindN with its target
reached. -/
theorem C8_continuous_never_sets_stop :
    (∀ (c : Nat) (flag : Bool), monitorStepFlag SearchBehavior.Continuous c flag = flag)
      ∧ (∀ (c : Nat) (flag : Bool), consumerStepFlag SearchBehavior.Continuous c flag = flag)
      ∧ (∀ (b : SearchBehavior) (c : Nat) (flag : Bool),
          monitorStepFlag b c flag = true ↔
            (flag = true ∨ ∃ n, b = SearchBehavior.FindN n ∧ n ≤ c))
      ∧ (∀ (b : SearchBehavior) (c : Nat) (flag : Bool),
          consumerStepFlag b c flag = true ↔
            (flag = true ∨ ∃ n, b = SearchBehavior.FindN n ∧ n ≤ c)) := by
  refine ⟨fun c flag => rfl, fun c flag => rfl, ?_, ?_⟩ <;>
    · intro b c flag
      cases b with
      | FindN n =>
        by_cases h : n ≤ c
        · simp [monitorStepFlag, consumerStepFlag, monitorShouldStop, consumerShouldStop, h]
        · simp [monitorStepFlag, consumerStepFlag, monitorShouldStop, consumerShouldStop, h]
      | Continuous =>
        simp [monitorStepFlag, consumerStepFlag, monitorShouldStop, consumerShouldStop]

/-- C9: the debug formatting of a SecureString is one fixed string containing
the redaction placeholder, independent of the wrapped value, and the expose
accessor returns exactly the construction argument. -/
theorem C9_securestring_redacted_debug :
    (∀ s t : SecureString, s.debugFmt = t.debugFmt)
      ∧ (∀ s : SecureString, s.debugFmt = secureStringRedactedOutput)
      ∧ (∀ d : String, (SecureString.new d).expose = d) :=
  ⟨fun _ _ => rfl, fun _ => rfl, fun _ => rfl⟩

/-! ## CPU worker loop (src/cpu.rs) -/

/-- Batch size selection from the pattern length in `CpuKeySearcher::search`. -/
def batchSizeFor (patLen : Nat) : Nat :=
  if 1 ≤ patLen ∧ patLen ≤ 4 then 1024
  else if 5 ≤ patLen ∧ patLen ≤ 6 then 2048
  else 4096

/-- The `UPDATE_INTERVAL` flush constant of the worker. -/
def updateInterval : Nat := 5000

/-- Environment of one worker: the sequence of stop-flag values it observes,
the seeds its thread-local RNG produces, and the outcomes of its channel
sends. -/
structure WorkerEnv where
  stopAt : Nat → Bool
  seedAt : Nat → Fin 32 → Nat
  sendOk : Nat → Bool

/-- State of one worker run: counters of stop-flag loads, generated seeds,
attempted sends, the local unflushed attempt count, the worker's
contribution to the shared total_attempts counter, and its contribution to
the shared prefix_matches counter. -/
structure WorkerState where
  loads : Nat
  gens : Nat
  sends : Nat
  localAttempts : Nat
  totalAdded : Nat
  matchesAdded : Nat
deriving DecidableEq

/-- How a worker run ends: by observing the stop flag at the loop head, or
by a failed channel send. -/
inductive WorkerExit where
  | stopped
  | sendFailed
deriving DecidableEq

/-- Outcome of one inner batch: completed, broke out on the stop flag, or
aborted on a failed send. -/
inductive InnerResult where
  | finished
  | broke
  | sendErr
deriving DecidableEq

/-- The `local_attempts += 1` step followed by the periodic flush
(`if local_attempts % UPDATE_INTERVAL == 0`). -/
def bumpLocal (s : WorkerState) : WorkerState :=
  if (s.localAttempts + 1) % updateInterval = 0 then
    { s with localAttempts := 0, totalAdded := s.totalAdded + (s.localAttempts + 1) }
  else
    { s with localAttempts := s.localAttempts + 1 }

/-- One candidate iteration of the worker after the stop check: generate a
seed, derive the public key, on a prefix match expand and validate the key
and send it; the boolean is false exactly when the send failed (the Rust
`return` path, taken before `local_attempts += 1`). -/
def workerIter (env : WorkerEnv) (pb : List Nat) (s : WorkerState) :
    WorkerState × Bool :=
  if check_prefix_match (derive_public_key (env.seedAt s.gens)) pb then
    if validate_meshcore_key_format (create_meshcore_private_key (env.seedAt s.gens)) then
      if env.sendOk s.sends then
        (bumpLocal
          { s with
              gens := s.gens + 1
              matchesAdded := s.matchesAdded + 1
              sends := s.sends + 1 }, true)
      else
        ({ s with
            gens := s.gens + 1
            matchesAdded := s.matchesAdded + 1
            sends := s.sends + 1 }, false)
    else
      (bumpLocal { s with gens := s.gens + 1 }, true)
  else
    (bumpLocal { s with gens := s.gens + 1 }, true)

/-- The inner `for _ in 0..batch_size` loop: each iteration first polls the
stop flag (breaking out of the batch), then runs one candidate iteration;
a failed send aborts the whole worker. -/
def innerBatch (env : WorkerEnv) (pb : List Nat) :
    Nat → WorkerState → WorkerState × InnerResult
  | 0, s => (s, InnerResult.finished)
  | r + 1, s =>
      if env.stopAt s.loads then
        ({ s with loads := s.loads + 1 }, InnerResult.broke)
      else
        match workerIter env pb { s with loads := s.loads + 1 } with
        | (s2, false) => (s2, InnerResult.sendErr)
        | (s2, true) => innerBatch env pb r s2

/-- The final flush after the while loop
(`if local_attempts > 0 { total_attempts.fetch_add(local_attempts) }`). -/
def finalFlush (s : WorkerState) : WorkerState :=
  if s.localAttempts > 0 then
    { s with totalAdded := s.totalAdded + s.localAttempts, localAttempts := 0 }
  else s

/-- The outer `while !stop_search` loop, with fuel bounding the number of
outer iterations; `none` means fuel ran out with the worker still looping.
A send failure returns at once, without the final flush. -/
def workerLoop (env : WorkerEnv) (pb : List Nat) (batch : Nat) :
    Nat → WorkerState → Option (WorkerState × WorkerExit)
  | 0, _ => none
  | f + 1, s =>
      if env.stopAt s.loads then
        some (finalFlush { s with loads := s.loads + 1 }, WorkerExit.stopped)
      else
        match innerBatch env pb batch { s with loads := s.loads + 1 } with
        | (s2, InnerResult.sendErr) => some (s2, WorkerExit.sendFailed)
        | (s2, _) => workerLoop env pb batch f s2

/-- All-zero initial worker state. -/
def initialWorkerState : WorkerState := ⟨0, 0, 0, 0, 0, 0⟩

/-- Embedding of `CpuKeySearcher::search`: convert the configured pattern to
bytes, pick the batch size from the pattern length, then run the worker
loop. -/
def cpu_search (env : WorkerEnv) (pat : String) (fuel : Nat) :
    Option (WorkerState × WorkerExit) :=
  workerLoop env (hex_string_to_bytes pat) (batchSizeFor pat.length) fuel
    initialWorkerState

/-! ## Claim C2: attempt accounting on worker exit -/

/-- bumpLocal moves one attempt into the running local-plus-flushed sum and
touches no other counter. -/
theorem bumpLocal_counts (s : WorkerState) :
    (bumpLocal s).totalAdded + (bumpLocal s).localAttempts
        = s.totalAdded + s.localAttempts + 1
      ∧ (bumpLocal s).gens = s.gens := by
  unfold bumpLocal
  split <;> simp <;> omega

/-- One candidate iteration preserves the accounting invariant whenever the
send did not fail; a failed send leaves the new candidate uncounted. -/
theorem workerIter_inv (env : WorkerEnv) (pb : List Nat) (s : WorkerState)
    (hI : s.totalAdded + s.localAttempts = s.gens) :
    ∀ s' ok, workerIter env pb s = (s', ok) → ok = true →
      s'.totalAdded + s'.localAttempts = s'.gens := by
  intro s' ok h hok
  unfold workerIter at h
  split at h
  · split at h
    · split at h
      · injection h with h1 h2
        subst h1
        have hb := bumpLocal_counts
          { s with
              gens := s.gens + 1
              matchesAdded := s.matchesAdded + 1
              sends := s.sends + 1 }
        simp at hb
        omega
      · injection h with h1 h2
        subst h2
        exact absurd hok (by simp)
    · injection h with h1 h2
      subst h1
      have hb := bumpLocal_counts { s with gens := s.gens + 1 }
      simp at hb
      omega
  · injection h with h1 h2
    subst h1
    have hb := bumpLocal_counts { s with gens := s.gens + 1 }
    simp at hb
    omega

/-- The inner batch preserves the accounting invariant unless it aborts on a
failed send. -/
theorem innerBatch_inv (env : WorkerEnv) (pb : List Nat) :
    ∀ (r : Nat) (s : WorkerState), s.totalAdded + s.localAttempts = s.gens →
      ∀ s' res, innerBatch env pb r s = (s', res) → res ≠ InnerResult.sendErr →
        s'.totalAdded + s'.localAttempts = s'.gens := by
  intro r
  induction r with
  | zero =>
    intro s hI s' res h _hres
    unfold innerBatch at h
    injection h with h1 h2
    subst h1
    exact hI
  | succ r ih =>
    intro s hI s' res h hres
    unfold innerBatch at h
    split at h
    · injection h with h1 h2
      subst h1
      simpa using hI
    · rcases hw : workerIter env pb { s with loads := s.loads + 1 } with ⟨s2, ok⟩
      rw [hw] at h
      cases ok
      · simp at h
        exact absurd h.2.symm hres
      · simp at h
        have hI2 : s2.totalAdded + s2.localAttempts = s2.gens :=
          workerIter_inv env pb _ (by simpa using hI) s2 true hw rfl
        exact ih s2 hI2 s' res h hres

/-- The final flush turns the accounting invariant into exact agreement of
the flushed total with the generated count. -/
theorem finalFlush_exact (s : WorkerState)
    (hI : s.totalAdded + s.localAttempts = s.gens) :
    (finalFlush s).totalAdded = (finalFlush s).gens := by
  unfold finalFlush
  split
  · simp
    omega
  · omega

/-- Whenever the outer loop exits through the stop-flag path, the flushed
total equals the generated count. -/
theorem workerLoop_stopped_inv (env : WorkerEnv) (pb : List Nat) (batch : Nat) :
    ∀ (fuel : Nat) (s : WorkerState), s.totalAdded + s.localAttempts = s.gens →
      ∀ s', workerLoop env pb batch fuel s = some (s', WorkerExit.stopped) →
        s'.totalAdded = s'.gens := by
  intro fuel
  induction fuel with
  | zero =>
    intro s hI s' h
    unfold workerLoop at h
    exact Option.noConfusion h
  | succ f ih =>
    intro s hI s' h
    unfold workerLoop at h
    split at h
    · injection h with h1
      injection h1 with h1a h1b
      subst h1a
      exact finalFlush_exact _ (by simpa using hI)
    · rcases hb : innerBatch env pb batch { s with loads := s.loads + 1 } with ⟨s2, res⟩
      rw [hb] at h
      cases res
      · simp at h
        exact ih s2 (innerBatch_inv env pb batch _ (by simpa using hI) s2 _ hb (by simp)) s' h
      · simp at h
        exact ih s2 (innerBatch_inv env pb batch _ (by simpa using hI) s2 _ hb (by simp)) s' h
      · simp at h

/-- C2 as claimed is false: a worker exiting through the failed-send path
returns without flushing, so its contribution to total_attempts undercounts
its generated candidates. Concretely, with the stop flag never set, every
send failing and the empty pattern, the worker exits after one generated
candidate having added nothing to the shared total. -/
theorem C2_counterexample_flush_on_every_exit :
    ¬ (∀ (env : WorkerEnv) (pat : String) (fuel : Nat) (s : WorkerState)
          (k : WorkerExit),
        cpu_search env pat fuel = some (s, k) → s.totalAdded = s.gens) := by
  intro hclaim
  have hrun : cpu_search ⟨fun _ => false, fun _ _ => 0, fun _ => false⟩ ("") 1
      = some (⟨2, 1, 1, 0, 0, 1⟩, WorkerExit.sendFailed) := by rfl
  have := hclaim ⟨fun _ => false, fun _ _ => 0, fun _ => false⟩ ("") 1
    ⟨2, 1, 1, 0, 0, 1⟩ WorkerExit.sendFailed hrun
  simp at this

/-- C2 amended: on the stop-flag exit path the worker does flush its residual
local count, so the flushed total equals the number of generated candidate
seeds; only the failed-send exit path returns without flushing. -/
theorem C2_amended_flush_on_stop_exit (env : WorkerEnv) (pat : String)
    (fuel : Nat) (s : WorkerState)
    (h : cpu_search env pat fuel = some (s, WorkerExit.stopped)) :
    s.totalAdded = s.gens := by
  unfold cpu_search at h
  exact workerLoop_stopped_inv env (hex_string_to_bytes pat)
    (batchSizeFor pat.length) fuel initialWorkerState rfl s h

/-- Witness for the amended C2: a worker that observes the stop flag at once
exits through the stop path with flushed total equal to generated count. -/
theorem C2_amended_flush_on_stop_exit_witness :
    cpu_search ⟨fun _ => true, fun _ _ => 0, fun _ => true⟩ ("A") 1
        = some (⟨1, 0, 0, 0, 0, 0⟩, WorkerExit.stopped)
      ∧ (⟨1, 0, 0, 0, 0, 0⟩ : WorkerState).totalAdded
          = (⟨1, 0, 0, 0, 0, 0⟩ : WorkerState).gens :=
  ⟨rfl, C2_amended_flush_on_stop_exit ⟨fun _ => true, fun _ _ => 0, fun _ => true⟩
    ("A") 1 ⟨1, 0, 0, 0, 0, 0⟩ rfl⟩
